import Mathlib

/-!
Shallow embedding of the fieldz-desktop webview (TypeScript) for claims C1-C10.
Sources: src/webview/src/lib/index.ts, src/webview/src/routes/groups/Groups.svelte,
src/webview/src/routes/scheduler/ReportTable.svelte,
src/webview/src/routes/scheduler/+page.svelte,
src/webview/src/routes/reservations/[fieldId]/+page.svelte, and the unnamed
field-reservation calendar page (src/unnamed/part_026).

Modelling conventions: JS `number` values that the code treats as integers are
`Int` (or `Nat` for u64 counts); `Date` values are milliseconds since the epoch
(`Int`); a JS function that can throw is `Option`-valued, `none` meaning a
thrown exception.
-/

namespace Fieldz

/-- TeamGroup record (index.ts): id, name, usage count. -/
structure TeamGroup where
  id : Int
  name : String
  usages : Int
deriving Repr, DecidableEq

/-- Target record (index.ts): id plus optional reservation type. -/
structure Target where
  id : Int
  maybe_reservation_type : Option Int
deriving Repr, DecidableEq

/-- TargetExtension record (index.ts): a target with its groups. -/
structure TargetExtension where
  target : Target
  groups : List TeamGroup
deriving Repr, DecidableEq

/-- RegionalUnionU64 (index.ts): tagged union `Interregional(n) | Regional([regionId, n][])`. -/
inductive RegionalUnionU64 where
  | Interregional (n : Nat)
  | Regional (pairs : List (Nat × Nat))
deriving Repr, DecidableEq

/-- Lookup in a JS `Map` built with `new Map(pairs)`: insertion of a duplicate key
overwrites, so the LAST pair for a key wins; `get` of an absent key is `undefined`
(here `none`). -/
def jsMapGet (pairs : List (Nat × Nat)) (k : Nat) : Option Nat :=
  (pairs.reverse.find? (fun p => p.1 == k)).map (fun p => p.2)

/-- SupplyRequireEntry record (index.ts). -/
structure SupplyRequireEntry where
  target : TargetExtension
  required : RegionalUnionU64
  supplied : RegionalUnionU64
deriving Repr, DecidableEq

/-- JS `a >= b` on two plain objects: ToPrimitive turns both wrappers into the
string "[object Object]", and `>=` on equal strings is true, so the comparison
yields true whatever numbers the wrappers hold. This embeds the expression
`supplyRequireEntry.supplied >= supplyRequireEntry.required` of index.ts line 401,
which compares the union OBJECTS, not their `.Interregional` fields. -/
def jsObjectGe (_a _b : RegionalUnionU64) : Bool := true

/-- isSupplyRequireEntryAccountedFor (index.ts lines 397-421). `none` models the
`throw new Error(...)` taken when the two unions are not of the same kind. -/
def isSupplyRequireEntryAccountedFor (e : SupplyRequireEntry) : Option Bool :=
  match e.supplied, e.required with
  | .Interregional a, .Interregional b =>
      some (jsObjectGe (.Interregional a) (.Interregional b))
  | .Regional sup, .Regional req =>
      some (req.all (fun p => !(decide ((jsMapGet sup p.1).getD 0 < p.2))))
  | _, _ => none

/-- Predicate written from the spec sentence "an entry is accounted for iff,
component-wise (per region, or the single total in interregional mode),
supplied ≥ required", kept alongside the code embedding so the two can be
compared. -/
def accountedForSpec (e : SupplyRequireEntry) : Option Bool :=
  match e.supplied, e.required with
  | .Interregional sup, .Interregional req => some (decide (req ≤ sup))
  | .Regional sup, .Regional req =>
      some (req.all (fun p => decide (p.2 ≤ (jsMapGet sup p.1).getD 0)))
  | _, _ => none

/-- DuplicateEntry record (index.ts). -/
structure DuplicateEntry where
  team_groups : List TeamGroup
  used_by : List TargetExtension
  teams_with_group_set : RegionalUnionU64
deriving Repr, DecidableEq

/-- PreScheduleReport record (index.ts). -/
structure PreScheduleReport where
  target_duplicates : List DuplicateEntry
  target_has_duplicates : List Int
  target_match_count : List SupplyRequireEntry
  total_matches_required : Int
  total_matches_supplied : Int
  interregional : Bool
deriving Repr, DecidableEq

/-- regionalUnionSumTotal (index.ts lines 346-358). -/
def regionalUnionSumTotal : RegionalUnionU64 → Nat
  | .Interregional n => n
  | .Regional pairs => pairs.foldl (fun acc p => acc + p.2) 0

/-- JS `Math.round`: round half toward positive infinity. -/
def jsRound (q : ℚ) : Int := ⌊q + 1 / 2⌋

/-- percentFillage (ReportTable.svelte lines 24-32): reassigns
`totalMatchesSupplied` to 1 when required is 0, else divides it by required,
then returns `Math.min(Math.round(x * 100), 100)`. -/
def percentFillage (totalMatchesRequired totalMatchesSupplied : Nat) : Int :=
  let x : ℚ :=
    if totalMatchesRequired = 0 then 1
    else (totalMatchesSupplied : ℚ) / (totalMatchesRequired : ℚ)
  min (jsRound (x * 100)) 100

/-- totalMatchesSupplied (ReportTable.svelte lines 78-82):
`Math.max(report.total_matches_supplied - (previousReport?.total_matches_required ?? 0), 0)`. -/
def totalMatchesSupplied (report : PreScheduleReport)
    (previousReport : Option PreScheduleReport) : Int :=
  max (report.total_matches_supplied -
    ((previousReport.map PreScheduleReport.total_matches_required).getD 0)) 0

/-- noDuplicates (Groups.svelte lines 29-37): scans the groups and returns false
on the first case-insensitive name match. -/
def noDuplicates (groups : List TeamGroup) (value : String) : Bool :=
  match groups with
  | [] => true
  | tag :: rest =>
      if tag.name.toLower = value.toLower then false else noDuplicates rest value

/-- add (Groups.svelte lines 39-52) reassigns `tag = tag.toLowerCase()` before
`invoke('create_group', { tag })`; this function is the string actually sent. -/
def addSentTag (tag : String) : String := tag.toLower

/-- MAX_GAMES_PER_FIELD_TYPE (index.ts line 452). -/
def MAX_GAMES_PER_FIELD_TYPE : Int := 8

/-- MIN_GAMES_PER_FIELD_TYPE (index.ts line 453). -/
def MIN_GAMES_PER_FIELD_TYPE : Int := 1

/-- FieldConcurrency record (index.ts). -/
structure FieldConcurrency where
  reservation_type_id : Int
  field_id : Int
  concurrency : Int
  is_custom : Bool
deriving Repr, DecidableEq

/-- increaseCount (reservations/[fieldId]/+page.svelte lines 306-316): `find`
locates the FIRST entry with the given reservation_type_id and, when its
concurrency is below MAX_GAMES_PER_FIELD_TYPE, increments it in place. When no
entry matches, the `thisType!.concurrency` dereference throws before any
mutation, so the list itself is unchanged; the embedding returns it as is. -/
def increaseCount (typeId : Int) : List FieldConcurrency → List FieldConcurrency
  | [] => []
  | fc :: rest =>
      if fc.reservation_type_id = typeId then
        (if fc.concurrency < MAX_GAMES_PER_FIELD_TYPE then
          { fc with concurrency := fc.concurrency + 1 }
        else fc) :: rest
      else fc :: increaseCount typeId rest

/-- decreaseCount (reservations/[fieldId]/+page.svelte lines 318-328): like
increaseCount but decrements while above MIN_GAMES_PER_FIELD_TYPE. -/
def decreaseCount (typeId : Int) : List FieldConcurrency → List FieldConcurrency
  | [] => []
  | fc :: rest =>
      if fc.reservation_type_id = typeId then
        (if MIN_GAMES_PER_FIELD_TYPE < fc.concurrency then
          { fc with concurrency := fc.concurrency - 1 }
        else fc) :: rest
      else fc :: decreaseCount typeId rest

/-- One user click on the plus or minus button of a reservation type. -/
inductive ConcurrencyOp where
  | inc (typeId : Int)
  | dec (typeId : Int)
deriving Repr, DecidableEq

/-- Applies one click to the gamesPerFieldType list. -/
def applyConcurrencyOp (l : List FieldConcurrency) : ConcurrencyOp → List FieldConcurrency
  | .inc t => increaseCount t l
  | .dec t => decreaseCount t l

/-- Applies a sequence of clicks left to right. -/
def runConcurrencyOps (l : List FieldConcurrency) (ops : List ConcurrencyOp) :
    List FieldConcurrency :=
  ops.foldl applyConcurrencyOp l

/-- Concurrency of every entry lies in [MIN, MAX]. -/
def concurrencyBounded (l : List FieldConcurrency) : Prop :=
  ∀ fc ∈ l, MIN_GAMES_PER_FIELD_TYPE ≤ fc.concurrency ∧
    fc.concurrency ≤ MAX_GAMES_PER_FIELD_TYPE

/-- ReservationType record (index.ts). -/
structure ReservationType where
  id : Int
  name : String
  color : String
  default_sizing : Int
  description : Option String
deriving Repr, DecidableEq

/-- TimeSlot record (index.ts): start and end are datetime strings. -/
structure TimeSlot where
  id : Int
  field_id : Int
  start : String
  «end» : String
deriving Repr, DecidableEq

/-- TimeSlotExtension record (index.ts). -/
structure TimeSlotExtension where
  time_slot : TimeSlot
  reservation_type : ReservationType
  custom_matches : Option Int
deriving Repr, DecidableEq

/-- CalendarEvent record (index.ts lines 605-620, the event-calendar object).
JS `Date` values are modelled as milliseconds since the epoch; the rich title
variants are collapsed to a plain string. -/
structure CalendarEvent where
  id : String
  resources : List Unit
  allDay : Bool
  start : Int
  «end» : Int
  title : Option String
  display : String
  backgroundColor : Option String
deriving Repr, DecidableEq

/-- eventFromTimeSlot (index.ts lines 273-284): builds a calendar event from a
time slot; `new Date(string)` is modelled by the ambient parseDate function. -/
def eventFromTimeSlot (parseDate : String → Int) (input : TimeSlotExtension)
    (title : Option String) : CalendarEvent :=
  { allDay := false
    display := "auto"
    id := toString input.time_slot.id
    resources := []
    start := parseDate input.time_slot.start
    «end» := parseDate input.time_slot.«end»
    backgroundColor := some input.reservation_type.color
    title := title }

/-- Delta record (index.ts lines 518-524). -/
structure Delta where
  years : Int
  months : Int
  days : Int
  seconds : Int
  inWeeks : Bool
deriving Repr, DecidableEq

/-- The canSkip loop of eventDrop/eventResize: skip when every numeric component
of the delta is zero (the boolean inWeeks field fails the typeof check and is
ignored). -/
def deltaCanSkip (d : Delta) : Bool :=
  d.years == 0 && d.months == 0 && d.days == 0 && d.seconds == 0

/-- A rejection value from invoke, reduced to whether it carries an Overlap key. -/
structure MoveError where
  hasOverlap : Bool
deriving Repr, DecidableEq

/-- Outcome of the move_time_slot invocation. -/
inductive MoveOutcome where
  | ok
  | err (e : MoveError)
deriving Repr, DecidableEq

/-- Observable effects of one eventDrop/eventResize run: whether move_time_slot
was invoked and whether e.revert() was called. -/
structure DropResult where
  invoked : Bool
  reverted : Bool
deriving Repr, DecidableEq

/-- eventDrop (reservations/[fieldId]/+page.svelte lines 122-165): skips when the
drag delta is all zero; otherwise invokes move_time_slot, and on a rejection
carrying an Overlap key calls e.revert(), while any other rejection opens a
dialog without reverting. -/
def eventDrop (delta : Delta) (outcome : MoveOutcome) : DropResult :=
  if deltaCanSkip delta then ⟨false, false⟩
  else
    match outcome with
    | .ok => ⟨true, false⟩
    | .err e => ⟨true, e.hasOverlap⟩

/-- eventResize (reservations/[fieldId]/+page.svelte lines 166-209): identical
handling driven by endDelta. -/
def eventResize (endDelta : Delta) (outcome : MoveOutcome) : DropResult :=
  if deltaCanSkip endDelta then ⟨false, false⟩
  else
    match outcome with
    | .ok => ⟨true, false⟩
    | .err e => ⟨true, e.hasOverlap⟩

/-- Component state of the field reservation calendar page (src/unnamed/part_026)
that the copy and selection flow touches. -/
structure ReservationPageState where
  events : List CalendarEvent
  selectionBuffer : List CalendarEvent
  intendingToCopy : Bool
  triggerId : Option Nat
  copyTriggerId : Option Nat
deriving Repr, DecidableEq

/-- onModeSwitch (part_026 lines 384-397): unselects, clears the selection
buffer and the copy intent, and closes the tracked toasts (the selection toast
only when closeToast is true). -/
def onModeSwitch (st : ReservationPageState) (closeToast : Bool) :
    ReservationPageState :=
  { st with
    selectionBuffer := []
    intendingToCopy := false
    triggerId := if closeToast then none else st.triggerId
    copyTriggerId := none }

/-- Outcome of the copy_time_slots invocation. -/
inductive CopyOutcome where
  | ok (slots : List TimeSlotExtension)
  | overlapErr
  | otherErr
deriving Repr, DecidableEq

/-- dateClick (part_026 lines 264-314): when a paste is pending and the user
confirms, invokes copy_time_slots; on success adds an event for every returned
slot and calls onModeSwitch; on an Overlap rejection only shows a toast and
deliberately skips onModeSwitch so the user can retry; on any other rejection
shows a dialog and calls onModeSwitch. -/
def dateClick (parseDate : String → Int) (st : ReservationPageState)
    (confirmed : Bool) (outcome : CopyOutcome) : ReservationPageState :=
  if !st.intendingToCopy then st
  else if !confirmed then st
  else
    match outcome with
    | .ok slots =>
        onModeSwitch { st with
          events := st.events ++
            slots.map (fun ts => eventFromTimeSlot parseDate ts none) } true
    | .overlapErr => st
    | .otherErr => onModeSwitch st true

/-- dragToSelect (part_026 lines 353-382): pushes every calendar event whose
start or end lies strictly inside the selection window [s, e), then sorts the
buffer with the comparator (a, b) => a.start - b.start (ascending by start;
Array.prototype.sort is stable, matching mergeSort). -/
def dragToSelect (events : List CalendarEvent) (s e : Int) : List CalendarEvent :=
  (events.filter (fun v =>
      (decide (s < v.start) && decide (v.start < e)) ||
      (decide (s < v.«end») && decide (v.«end» < e)))).mergeSort
    (fun a b => decide (a.start ≤ b.start))

/-- isTargetOk (scheduler/+page.svelte lines 379-415). `none` models a thrown
TypeError: when the non-null-asserted find over target_duplicates yields
undefined, the subsequent `.teams_with_group_set` access throws; the call to
isSupplyRequireEntryAccountedFor can itself throw on mismatched union kinds.
The inner `find` over used_by is used for its truthiness, i.e. as `any`. -/
def isTargetOk (report : PreScheduleReport) (target : TargetExtension) : Option Bool :=
  if report.target_has_duplicates.contains target.target.id then some false
  else
    match report.target_duplicates.find? (fun d =>
        d.used_by.any (fun t2 => t2.target.id == target.target.id)) with
    | none => none
    | some targetDuplicate =>
        if regionalUnionSumTotal targetDuplicate.teams_with_group_set = 0 then
          some false
        else
          let targetMatchCount := report.target_match_count.find? (fun sre =>
            sre.target.target.id == target.target.id)
          if (match targetMatchCount with
              | none => 0
              | some sre => regionalUnionSumTotal sre.required) = 0 then
            some false
          else
            match targetMatchCount with
            | none => some false
            | some sre => isSupplyRequireEntryAccountedFor sre

/-- The domain condition of isTargetOk: the target is listed in
target_has_duplicates, or some duplicate entry's used_by mentions its id. -/
def targetOkPrecondition (report : PreScheduleReport) (target : TargetExtension) : Prop :=
  target.target.id ∈ report.target_has_duplicates ∨
    ∃ d ∈ report.target_duplicates, ∃ t2 ∈ d.used_by,
      t2.target.id = target.target.id

/-- SCHEDULE_CREATION_DELAY (index.ts line 480): client cooldown in ms. -/
def SCHEDULE_CREATION_DELAY : Nat := 30000

/-- Cooldown state of the scheduler page: the schedulerWait flag together with
the wall clock deadline of the pending setTimeout that will clear it, if any. -/
structure SchedulerState where
  schedulerWait : Bool
  clearAt : Option Nat
deriving Repr, DecidableEq

/-- One invocation of beginScheduleTransaction: its wall clock time (ms) and
whether the auth store reports a signed-in user. -/
structure ScheduleCall where
  time : Nat
  isLoggedIn : Bool
deriving Repr, DecidableEq

/-- Timer semantics of the sequential client: a pending setTimeout whose
deadline has passed fires before the next call runs, and the callback
registered by beginScheduleTransaction resets schedulerWait to false. -/
def fireTimers (s : SchedulerState) (now : Nat) : SchedulerState :=
  match s.clearAt with
  | some c => if c ≤ now then ⟨false, none⟩ else s
  | none => s

/-- beginScheduleTransaction (scheduler/+page.svelte lines 432-487): returns
without invoking `schedule` when the user is not signed in or while
schedulerWait is set; otherwise invokes `schedule` (the returned time is the
issue time), sets schedulerWait, and schedules its reset
SCHEDULE_CREATION_DELAY ms later. -/
def beginScheduleTransaction (s : SchedulerState) (call : ScheduleCall) :
    SchedulerState × Option Nat :=
  let s1 := fireTimers s call.time
  if !call.isLoggedIn then (s1, none)
  else if s1.schedulerWait then (s1, none)
  else (⟨true, some (call.time + SCHEDULE_CREATION_DELAY)⟩, some call.time)

/-- Runs a sequence of calls, collecting the times at which `schedule` was
actually invoked. -/
def runScheduleCalls (s : SchedulerState) :
    List ScheduleCall → SchedulerState × List Nat
  | [] => (s, [])
  | c :: rest =>
      let r1 := beginScheduleTransaction s c
      let r2 := runScheduleCalls r1.1 rest
      (r2.1, r1.2.toList ++ r2.2)

/-- A nonnegative rational rounds to a nonnegative integer. -/
theorem jsRound_nonneg {q : ℚ} (hq : 0 ≤ q) : 0 ≤ jsRound q := by
  unfold jsRound
  exact Int.le_floor.mpr (by push_cast; linarith)

/-- C1: the interregional branch of isSupplyRequireEntryAccountedFor compares the
two union objects, not their wrapped totals, so it yields true even at
supplied = Interregional 0, required = Interregional 5, where the spec predicate
(supplied ≥ required on the single totals) yields false. -/
theorem isSupplyRequireEntryAccountedFor_interregional_bug_c1 :
    isSupplyRequireEntryAccountedFor
      { target := { target := { id := 1, maybe_reservation_type := none }, groups := [] },
        required := .Interregional 5, supplied := .Interregional 0 } = some true
    ∧ accountedForSpec
      { target := { target := { id := 1, maybe_reservation_type := none }, groups := [] },
        required := .Interregional 5, supplied := .Interregional 0 } = some false :=
  ⟨rfl, rfl⟩

/-- C4: with a previous report the displayed supplied total is
max(total_supplied - previous total_required, 0); with no previous report the
subtrahend defaults to 0 so (for a nonnegative total) the value is
total_supplied itself; the result is never negative. -/
theorem totalMatchesSupplied_c4 :
    ∀ (report prev : PreScheduleReport),
      totalMatchesSupplied report (some prev) =
        max (report.total_matches_supplied - prev.total_matches_required) 0 ∧
      (0 ≤ report.total_matches_supplied →
        totalMatchesSupplied report none = report.total_matches_supplied) ∧
      ∀ p : Option PreScheduleReport, 0 ≤ totalMatchesSupplied report p := by
  intro report prev
  refine ⟨rfl, fun h => ?_, fun p => le_max_right _ _⟩
  unfold totalMatchesSupplied
  simp only [Option.map_none', Option.getD_none, sub_zero]
  exact max_eq_left h

/-- C4 witness: concrete evaluation via totalMatchesSupplied_c4. -/
theorem totalMatchesSupplied_c4_witness :
    totalMatchesSupplied ⟨[], [], [], 3, 5, false⟩ none = 5 :=
  (totalMatchesSupplied_c4 ⟨[], [], [], 3, 5, false⟩
    ⟨[], [], [], 2, 1, false⟩).2.1 (by decide)

/-- C7: noDuplicates rejects a candidate name exactly when some existing group
name matches it up to case, and the add handler sends the lowercased tag. -/
theorem groups_case_insensitive_c7 :
    ∀ (groups : List TeamGroup) (value : String),
      (noDuplicates groups value = false ↔
        ∃ g ∈ groups, g.name.toLower = value.toLower) ∧
      ∀ t : String, addSentTag t = t.toLower := by
  intro groups value
  refine ⟨?_, fun t => rfl⟩
  induction groups with
  | nil => simp [noDuplicates]
  | cons tag rest ih =>
      by_cases h : tag.name.toLower = value.toLower
      · simp [noDuplicates, h]
      · simp [noDuplicates, h, ih]

/-- C10: percentFillage always lands in [0, 100]; it is 100 when nothing is
required and min(round(100 * supplied / required), 100) otherwise. -/
theorem percentFillage_range_c10 :
    ∀ r s : Nat,
      0 ≤ percentFillage r s ∧ percentFillage r s ≤ 100 ∧
      (r = 0 → percentFillage r s = 100) ∧
      (r ≠ 0 → percentFillage r s = min (jsRound (100 * (s : ℚ) / (r : ℚ))) 100) := by
  intro r s
  by_cases hr : r = 0
  · subst hr
    have h100 : jsRound (100 : ℚ) = 100 := by
      unfold jsRound
      rw [Int.floor_eq_iff]
      norm_num
    have hval : percentFillage 0 s = 100 := by
      simp [percentFillage, h100]
    rw [hval]
    norm_num
  · have hne : percentFillage r s = min (jsRound ((s : ℚ) / (r : ℚ) * 100)) 100 := by
      simp [percentFillage, if_neg hr]
    have harg : (s : ℚ) / (r : ℚ) * 100 = 100 * (s : ℚ) / (r : ℚ) := by ring
    have h0 : 0 ≤ jsRound ((s : ℚ) / (r : ℚ) * 100) := jsRound_nonneg (by positivity)
    rw [hne]
    exact ⟨le_min h0 (by norm_num), min_le_right _ _, fun h => absurd h hr,
      fun _ => by rw [harg]⟩

/-- C10 witness: concrete evaluations via percentFillage_range_c10. -/
theorem percentFillage_range_c10_witness :
    percentFillage 0 7 = 100 ∧
    percentFillage 4 2 = min (jsRound (100 * (2 : ℚ) / (4 : ℚ))) 100 :=
  ⟨(percentFillage_range_c10 0 7).2.2.1 rfl,
   (percentFillage_range_c10 4 2).2.2.2 (by decide)⟩

/-- increaseCount keeps every concurrency within [MIN, MAX]. -/
theorem increaseCount_bounded (typeId : Int) :
    ∀ l : List FieldConcurrency, concurrencyBounded l →
      concurrencyBounded (increaseCount typeId l) := by
  intro l
  induction l with
  | nil => intro h; exact h
  | cons fc rest ih =>
      intro h
      have hfc := h fc (List.mem_cons_self _ _)
      have hrest : concurrencyBounded rest := fun x hx => h x (List.mem_cons_of_mem _ hx)
      unfold increaseCount
      by_cases hid : fc.reservation_type_id = typeId
      · rw [if_pos hid]
        intro x hx
        rcases List.mem_cons.mp hx with hx | hx
        · subst hx
          by_cases hlt : fc.concurrency < MAX_GAMES_PER_FIELD_TYPE
          · rw [if_pos hlt]
            refine ⟨?_, ?_⟩ <;>
              simp only [MIN_GAMES_PER_FIELD_TYPE, MAX_GAMES_PER_FIELD_TYPE] at * <;> omega
          · rw [if_neg hlt]
            exact hfc
        · exact hrest x hx
      · rw [if_neg hid]
        intro x hx
        rcases List.mem_cons.mp hx with hx | hx
        · subst hx; exact hfc
        · exact ih hrest x hx

/-- decreaseCount keeps every concurrency within [MIN, MAX]. -/
theorem decreaseCount_bounded (typeId : Int) :
    ∀ l : List FieldConcurrency, concurrencyBounded l →
      concurrencyBounded (decreaseCount typeId l) := by
  intro l
  induction l with
  | nil => intro h; exact h
  | cons fc rest ih =>
      intro h
      have hfc := h fc (List.mem_cons_self _ _)
      have hrest : concurrencyBounded rest := fun x hx => h x (List.mem_cons_of_mem _ hx)
      unfold decreaseCount
      by_cases hid : fc.reservation_type_id = typeId
      · rw [if_pos hid]
        intro x hx
        rcases List.mem_cons.mp hx with hx | hx
        · subst hx
          by_cases hlt : MIN_GAMES_PER_FIELD_TYPE < fc.concurrency
          · rw [if_pos hlt]
            refine ⟨?_, ?_⟩ <;>
              simp only [MIN_GAMES_PER_FIELD_TYPE, MAX_GAMES_PER_FIELD_TYPE] at * <;> omega
          · rw [if_neg hlt]
            exact hfc
        · exact hrest x hx
      · rw [if_neg hid]
        intro x hx
        rcases List.mem_cons.mp hx with hx | hx
        · subst hx; exact hfc
        · exact ih hrest x hx

/-- Bounds survive any sequence of clicks. -/
theorem runConcurrencyOps_bounded :
    ∀ (ops : List ConcurrencyOp) (l : List FieldConcurrency), concurrencyBounded l →
      concurrencyBounded (runConcurrencyOps l ops) := by
  intro ops
  induction ops with
  | nil => intro l h; exact h
  | cons op rest ih =>
      intro l h
      have h1 : concurrencyBounded (applyConcurrencyOp l op) := by
        cases op with
        | inc t => exact increaseCount_bounded t l h
        | dec t => exact decreaseCount_bounded t l h
      exact ih _ h1

/-- increaseCount rewrites the first matching entry and nothing else. -/
theorem increaseCount_append (typeId : Int) (fc : FieldConcurrency)
    (post : List FieldConcurrency) :
    ∀ pre : List FieldConcurrency, (∀ x ∈ pre, x.reservation_type_id ≠ typeId) →
      fc.reservation_type_id = typeId →
      increaseCount typeId (pre ++ fc :: post) =
        pre ++ (if fc.concurrency < MAX_GAMES_PER_FIELD_TYPE then
          { fc with concurrency := fc.concurrency + 1 } else fc) :: post := by
  intro pre
  induction pre with
  | nil =>
      intro _ hfc
      simp only [List.nil_append]
      unfold increaseCount
      rw [if_pos hfc]
  | cons y pre ih =>
      intro hpre hfc
      simp only [List.cons_append]
      unfold increaseCount
      rw [if_neg (hpre y (List.mem_cons_self _ _)),
        ih (fun x hx => hpre x (List.mem_cons_of_mem _ hx)) hfc]

/-- decreaseCount rewrites the first matching entry and nothing else. -/
theorem decreaseCount_append (typeId : Int) (fc : FieldConcurrency)
    (post : List FieldConcurrency) :
    ∀ pre : List FieldConcurrency, (∀ x ∈ pre, x.reservation_type_id ≠ typeId) →
      fc.reservation_type_id = typeId →
      decreaseCount typeId (pre ++ fc :: post) =
        pre ++ (if MIN_GAMES_PER_FIELD_TYPE < fc.concurrency then
          { fc with concurrency := fc.concurrency - 1 } else fc) :: post := by
  intro pre
  induction pre with
  | nil =>
      intro _ hfc
      simp only [List.nil_append]
      unfold decreaseCount
      rw [if_pos hfc]
  | cons y pre ih =>
      intro hpre hfc
      simp only [List.cons_append]
      unfold decreaseCount
      rw [if_neg (hpre y (List.mem_cons_self _ _)),
        ih (fun x hx => hpre x (List.mem_cons_of_mem _ hx)) hfc]

/-- C6: starting with every per-type concurrency in [1, 8], any sequence of
increase/decrease clicks keeps them in [1, 8]; a click whose first matching
entry sits at the relevant boundary leaves the list unchanged, and otherwise
it changes exactly that entry by exactly one. -/
theorem concurrency_bounds_c6 :
    (∀ (ops : List ConcurrencyOp) (l : List FieldConcurrency),
      concurrencyBounded l → concurrencyBounded (runConcurrencyOps l ops)) ∧
    ∀ (typeId : Int) (pre post : List FieldConcurrency) (fc : FieldConcurrency),
      (∀ x ∈ pre, x.reservation_type_id ≠ typeId) →
      fc.reservation_type_id = typeId →
      ((fc.concurrency = MAX_GAMES_PER_FIELD_TYPE →
          increaseCount typeId (pre ++ fc :: post) = pre ++ fc :: post) ∧
       (fc.concurrency < MAX_GAMES_PER_FIELD_TYPE →
          increaseCount typeId (pre ++ fc :: post) =
            pre ++ { fc with concurrency := fc.concurrency + 1 } :: post) ∧
       (fc.concurrency = MIN_GAMES_PER_FIELD_TYPE →
          decreaseCount typeId (pre ++ fc :: post) = pre ++ fc :: post) ∧
       (MIN_GAMES_PER_FIELD_TYPE < fc.concurrency →
          decreaseCount typeId (pre ++ fc :: post) =
            pre ++ { fc with concurrency := fc.concurrency - 1 } :: post)) := by
  refine ⟨runConcurrencyOps_bounded, ?_⟩
  intro typeId pre post fc hpre hfc
  have hinc := increaseCount_append typeId fc post pre hpre hfc
  have hdec := decreaseCount_append typeId fc post pre hpre hfc
  refine ⟨fun hc => ?_, fun hc => ?_, fun hc => ?_, fun hc => ?_⟩
  · rw [hinc, if_neg (by rw [hc]; exact lt_irrefl _)]
  · rw [hinc, if_pos hc]
  · rw [hdec, if_neg (by rw [hc]; exact lt_irrefl _)]
  · rw [hdec, if_pos hc]

/-- C6 witness: a type already at concurrency 8 is left untouched by a plus
click, via concurrency_bounds_c6. -/
theorem concurrency_bounds_c6_witness :
    increaseCount 1 ((⟨1, 2, 8, false⟩ : FieldConcurrency) :: []) =
      (⟨1, 2, 8, false⟩ : FieldConcurrency) :: [] :=
  ((concurrency_bounds_c6.2 1 [] [] ⟨1, 2, 8, false⟩ (by simp) rfl).1 rfl)

/-- C3: whenever the move_time_slot invocation actually happened and rejected,
revert() is called exactly when the rejection carries an Overlap key, and a
successful move never reverts. -/
theorem revert_iff_overlap_c3 :
    ∀ (d : Delta) (e : MoveError),
      ((eventDrop d (.err e)).invoked = true →
        (eventDrop d (.err e)).reverted = e.hasOverlap) ∧
      ((eventResize d (.err e)).invoked = true →
        (eventResize d (.err e)).reverted = e.hasOverlap) ∧
      (eventDrop d .ok).reverted = false ∧
      (eventResize d .ok).reverted = false := by
  intro d e
  by_cases h : deltaCanSkip d = true
  · simp [eventDrop, eventResize, h]
  · have h2 : deltaCanSkip d = false := by simpa using h
    simp [eventDrop, eventResize, h2]

/-- C3 witness: a one-day drag rejected with Overlap reverts, via
revert_iff_overlap_c3. -/
theorem revert_iff_overlap_c3_witness :
    (eventDrop ⟨0, 0, 1, 0, false⟩ (.err ⟨true⟩)).reverted = true :=
  (revert_iff_overlap_c3 ⟨0, 0, 1, 0, false⟩ ⟨true⟩).1 (by decide)

/-- C2: with a paste pending and confirmed, an Overlap rejection of
copy_time_slots leaves the whole page state (events and selection/copy state)
untouched, while a success appends exactly the returned slots as events and
resets the selection state. -/
theorem copy_overlap_transactional_c2 :
    ∀ (parseDate : String → Int) (st : ReservationPageState)
      (slots : List TimeSlotExtension),
      st.intendingToCopy = true →
      dateClick parseDate st true .overlapErr = st ∧
      (dateClick parseDate st true (.ok slots)).events =
        st.events ++ slots.map (fun ts => eventFromTimeSlot parseDate ts none) ∧
      (dateClick parseDate st true (.ok slots)).selectionBuffer = [] ∧
      (dateClick parseDate st true (.ok slots)).intendingToCopy = false := by
  intro parseDate st slots h
  simp [dateClick, onModeSwitch, h]

/-- C2 witness: concrete Overlap rejection leaves a concrete state unchanged,
via copy_overlap_transactional_c2. -/
theorem copy_overlap_transactional_c2_witness :
    dateClick (fun _ => 0) ⟨[], [], true, none, none⟩ true .overlapErr =
      ⟨[], [], true, none, none⟩ :=
  (copy_overlap_transactional_c2 (fun _ => 0) ⟨[], [], true, none, none⟩ [] rfl).1

/-- C8: the selection buffer holds exactly the events whose start or end lies
strictly inside the window; an event spanning the whole window is excluded, an
event merely abutting a boundary is excluded, and the buffer is sorted by
start time ascending. -/
theorem dragToSelect_c8 :
    ∀ (events : List CalendarEvent) (s e : Int) (v : CalendarEvent),
      (v ∈ dragToSelect events s e ↔
        v ∈ events ∧ ((s < v.start ∧ v.start < e) ∨ (s < v.«end» ∧ v.«end» < e))) ∧
      (v.start ≤ s → e ≤ v.«end» → v ∉ dragToSelect events s e) ∧
      (v.start ≤ v.«end» → v.«end» = s ∨ v.start = e → v ∉ dragToSelect events s e) ∧
      List.Pairwise (fun a b => a.start ≤ b.start) (dragToSelect events s e) := by
  intro events s e v
  have hmem : v ∈ dragToSelect events s e ↔
      v ∈ events ∧ ((s < v.start ∧ v.start < e) ∨ (s < v.«end» ∧ v.«end» < e)) := by
    unfold dragToSelect
    rw [List.mem_mergeSort, List.mem_filter]
    simp
  refine ⟨hmem, ?_, ?_, ?_⟩
  · intro h1 h2 hv
    rcases (hmem.mp hv).2 with ⟨ha, hb⟩ | ⟨ha, hb⟩ <;> omega
  · intro hse hb hv
    rcases hb with hb | hb <;>
      rcases (hmem.mp hv).2 with ⟨ha, hc⟩ | ⟨ha, hc⟩ <;> omega
  · unfold dragToSelect
    have hs := @List.sorted_mergeSort CalendarEvent
      (fun a b => decide (a.start ≤ b.start))
      (fun a b c hab hbc => by
        simp only [decide_eq_true_eq] at *
        exact le_trans hab hbc)
      (fun a b => by
        simp only [Bool.or_eq_true, decide_eq_true_eq]
        exact le_total a.start b.start)
      (events.filter (fun v =>
        (decide (s < v.start) && decide (v.start < e)) ||
        (decide (s < v.«end») && decide (v.«end» < e))))
    exact hs.imp (fun h => by simpa using h)

/-- C8 witness: concrete exclusion of an event spanning the whole window, via
dragToSelect_c8. -/
theorem dragToSelect_c8_witness :
    (⟨"1", [], false, 0, 10, none, "auto", none⟩ : CalendarEvent) ∉
      dragToSelect [⟨"1", [], false, 0, 10, none, "auto", none⟩] 2 8 :=
  (dragToSelect_c8 [⟨"1", [], false, 0, 10, none, "auto", none⟩] 2 8
    ⟨"1", [], false, 0, 10, none, "auto", none⟩).2.1 (by decide) (by decide)

/-- C9: outside its domain condition isTargetOk throws (evaluates to none); a
target listed in target_has_duplicates returns false before the dangerous find;
and under the domain condition the non-null-asserted find cannot yield
undefined. -/
theorem isTargetOk_totality_c9 :
    ∀ (report : PreScheduleReport) (target : TargetExtension),
      (¬ targetOkPrecondition report target → isTargetOk report target = none) ∧
      (target.target.id ∈ report.target_has_duplicates →
        isTargetOk report target = some false) ∧
      (targetOkPrecondition report target →
        target.target.id ∈ report.target_has_duplicates ∨
        (report.target_duplicates.find? (fun d =>
          d.used_by.any (fun t2 => t2.target.id == target.target.id))).isSome) := by
  intro report target
  refine ⟨?_, ?_, ?_⟩
  · intro hnp
    have h1 : target.target.id ∉ report.target_has_duplicates := fun h =>
      hnp (Or.inl h)
    have h2 : ¬ ∃ d ∈ report.target_duplicates, ∃ t2 ∈ d.used_by,
        t2.target.id = target.target.id := fun h => hnp (Or.inr h)
    have hfind : report.target_duplicates.find? (fun d =>
        d.used_by.any (fun t2 => t2.target.id == target.target.id)) = none := by
      rw [List.find?_eq_none]
      intro d hd hpd
      rcases List.any_eq_true.mp hpd with ⟨t2, ht2, heq⟩
      exact h2 ⟨d, hd, t2, ht2, by simpa using heq⟩
    unfold isTargetOk
    rw [if_neg (by simpa using h1), hfind]
  · intro h
    unfold isTargetOk
    rw [if_pos (by simpa using h)]
  · intro hp
    rcases hp with h | ⟨d, hd, t2, ht2, heq⟩
    · exact Or.inl h
    · exact Or.inr (List.find?_isSome.mpr
        ⟨d, hd, List.any_eq_true.mpr ⟨t2, ht2, by simpa using heq⟩⟩)

/-- C9 witness: a report with no duplicate entries makes isTargetOk throw, via
isTargetOk_totality_c9. -/
theorem isTargetOk_totality_c9_witness :
    isTargetOk ⟨[], [], [], 0, 0, false⟩ ⟨⟨7, none⟩, []⟩ = none :=
  (isTargetOk_totality_c9 ⟨[], [], [], 0, 0, false⟩ ⟨⟨7, none⟩, []⟩).1 (by
    simp [targetOkPrecondition])

/-- A schedule request, when issued, is issued at the time of its call. -/
theorem beginScheduleTransaction_issue_eq :
    ∀ (s : SchedulerState) (call : ScheduleCall) (i : Nat),
      (beginScheduleTransaction s call).2 = some i → i = call.time := by
  intro s call i h
  by_cases hl : call.isLoggedIn = true
  · by_cases hw : (fireTimers s call.time).schedulerWait = true
    · simp [beginScheduleTransaction, hl, hw] at h
    · simp [beginScheduleTransaction, hl, hw] at h
      omega
  · simp [beginScheduleTransaction, hl] at h

/-- Every collected issue time is the time of one of the calls. -/
theorem runScheduleCalls_issue_mem :
    ∀ (calls : List ScheduleCall) (s : SchedulerState) (i : Nat),
      i ∈ (runScheduleCalls s calls).2 → ∃ call ∈ calls, i = call.time := by
  intro calls
  induction calls with
  | nil => intro s i h; simp [runScheduleCalls] at h
  | cons c rest ih =>
      intro s i h
      simp only [runScheduleCalls, List.mem_append] at h
      rcases h with h | h
      · have h2 : (beginScheduleTransaction s c).2 = some i := by
          simpa using h
        exact ⟨c, List.mem_cons_self _ _, beginScheduleTransaction_issue_eq s c i h2⟩
      · rcases ih _ i h with ⟨call, hcall, he⟩
        exact ⟨call, List.mem_cons_of_mem _ hcall, he⟩

/-- Core cooldown induction: over a time-ordered call list, issue times are
chained at least SCHEDULE_CREATION_DELAY apart, and with a pending reset at c
no issue happens before c. -/
theorem runScheduleCalls_gap_aux :
    ∀ calls : List ScheduleCall,
      List.Pairwise (fun a b => a.time ≤ b.time) calls →
      List.Chain' (fun t1 t2 => t1 + SCHEDULE_CREATION_DELAY ≤ t2)
          (runScheduleCalls ⟨false, none⟩ calls).2 ∧
      ∀ c : Nat,
        List.Chain' (fun t1 t2 => t1 + SCHEDULE_CREATION_DELAY ≤ t2)
            (runScheduleCalls ⟨true, some c⟩ calls).2 ∧
        ∀ i ∈ (runScheduleCalls ⟨true, some c⟩ calls).2, c ≤ i := by
  intro calls
  induction calls with
  | nil =>
      intro _
      exact ⟨by simp [runScheduleCalls], fun c =>
        ⟨by simp [runScheduleCalls], by simp [runScheduleCalls]⟩⟩
  | cons c0 rest ih =>
      intro hp
      obtain ⟨hhd, hrest⟩ := List.pairwise_cons.mp hp
      have ihrest := ih hrest
      constructor
      · by_cases hl : c0.isLoggedIn = true
        · have hrun : (runScheduleCalls ⟨false, none⟩ (c0 :: rest)).2 =
              c0.time ::
                (runScheduleCalls
                  ⟨true, some (c0.time + SCHEDULE_CREATION_DELAY)⟩ rest).2 := by
            simp [runScheduleCalls, beginScheduleTransaction, fireTimers, hl]
          rw [hrun]
          rcases ihrest.2 (c0.time + SCHEDULE_CREATION_DELAY) with ⟨hch, hbd⟩
          rw [List.chain'_cons']
          exact ⟨fun h hh => hbd h (List.mem_of_mem_head? hh), hch⟩
        · have hrun : (runScheduleCalls ⟨false, none⟩ (c0 :: rest)).2 =
              (runScheduleCalls ⟨false, none⟩ rest).2 := by
            simp [runScheduleCalls, beginScheduleTransaction, fireTimers, hl]
          rw [hrun]
          exact ihrest.1
      · intro c
        by_cases hc : c ≤ c0.time
        · by_cases hl : c0.isLoggedIn = true
          · have hrun : (runScheduleCalls ⟨true, some c⟩ (c0 :: rest)).2 =
                c0.time ::
                  (runScheduleCalls
                    ⟨true, some (c0.time + SCHEDULE_CREATION_DELAY)⟩ rest).2 := by
              simp [runScheduleCalls, beginScheduleTransaction, fireTimers, hl, hc]
            rw [hrun]
            rcases ihrest.2 (c0.time + SCHEDULE_CREATION_DELAY) with ⟨hch, hbd⟩
            constructor
            · rw [List.chain'_cons']
              exact ⟨fun h hh => hbd h (List.mem_of_mem_head? hh), hch⟩
            · intro i hi
              rcases List.mem_cons.mp hi with hi | hi
              · omega
              · have := hbd i hi
                omega
          · have hrun : (runScheduleCalls ⟨true, some c⟩ (c0 :: rest)).2 =
                (runScheduleCalls ⟨false, none⟩ rest).2 := by
              simp [runScheduleCalls, beginScheduleTransaction, fireTimers, hl, hc]
            rw [hrun]
            refine ⟨ihrest.1, fun i hi => ?_⟩
            rcases runScheduleCalls_issue_mem rest _ i hi with ⟨call, hcall, he⟩
            have := hhd call hcall
            omega
        · have hrun : (runScheduleCalls ⟨true, some c⟩ (c0 :: rest)).2 =
              (runScheduleCalls ⟨true, some c⟩ rest).2 := by
            by_cases hl : c0.isLoggedIn = true <;>
              simp [runScheduleCalls, beginScheduleTransaction, fireTimers, hl, hc]
          rw [hrun]
          exact ihrest.2 c

/-- C5: issuing a request sets schedulerWait with its reset scheduled exactly
SCHEDULE_CREATION_DELAY ms later; the flag survives every earlier instant; a
call made while the flag is set issues nothing; hence over any time-ordered
call sequence the issued request times are pairwise at least 30000 ms apart. -/
theorem schedule_cooldown_c5 :
    ∀ calls : List ScheduleCall,
      List.Pairwise (fun a b => a.time ≤ b.time) calls →
      (∀ (s : SchedulerState) (call : ScheduleCall) (i : Nat),
          (beginScheduleTransaction s call).2 = some i →
            (beginScheduleTransaction s call).1 =
              ⟨true, some (call.time + SCHEDULE_CREATION_DELAY)⟩) ∧
      (∀ c now : Nat, now < c → fireTimers ⟨true, some c⟩ now = ⟨true, some c⟩) ∧
      (∀ (c : Nat) (call : ScheduleCall), call.time < c →
          (beginScheduleTransaction ⟨true, some c⟩ call).2 = none) ∧
      List.Pairwise (fun t1 t2 => t1 + SCHEDULE_CREATION_DELAY ≤ t2)
        (runScheduleCalls ⟨false, none⟩ calls).2 := by
  intro calls hp
  refine ⟨?_, ?_, ?_, ?_⟩
  · intro s call i h
    by_cases hl : call.isLoggedIn = true
    · by_cases hw : (fireTimers s call.time).schedulerWait = true
      · simp [beginScheduleTransaction, hl, hw] at h
      · simp [beginScheduleTransaction, hl, hw]
    · simp [beginScheduleTransaction, hl] at h
  · intro c now h
    simp [fireTimers, show ¬(c ≤ now) by omega]
  · intro c call h
    by_cases hl : call.isLoggedIn = true <;>
      simp [beginScheduleTransaction, fireTimers, hl, show ¬(c ≤ call.time) by omega]
  · haveI : IsTrans Nat (fun t1 t2 => t1 + SCHEDULE_CREATION_DELAY ≤ t2) :=
      ⟨fun a b c h1 h2 => by omega⟩
    rw [← List.chain'_iff_pairwise]
    exact (runScheduleCalls_gap_aux calls hp).1

/-- C5 witness: three signed-in calls at 0 ms, 10000 ms and 30000 ms issue only
at 0 and 30000, with the 30-second spacing, via schedule_cooldown_c5. -/
theorem schedule_cooldown_c5_witness :
    List.Pairwise (fun t1 t2 => t1 + SCHEDULE_CREATION_DELAY ≤ t2)
      (runScheduleCalls ⟨false, none⟩
        [⟨0, true⟩, ⟨10000, true⟩, ⟨30000, true⟩]).2 :=
  (schedule_cooldown_c5 [⟨0, true⟩, ⟨10000, true⟩, ⟨30000, true⟩]
    (by decide)).2.2.2

end Fieldz
